import Mathlib

/-!
Verification development for the warning-ledger Telegram moderation bot
(`bot.py`).  The Python source is shallowly embedded: the SQLite tables
become Lean lists held in a `DB` structure, each database-touching
function becomes a pure Lean function on `DB` (with the wall-clock
timestamp passed in explicitly), and the aiogram command handlers become
functions from the incoming message to the updated `DB` plus an abstract
`Reply` describing which message the bot answers with.  Fallible paths
(the `warn_type` CHECK constraint, the membership lookup that may raise)
are embedded with `Option`.
-/

namespace TgBot

/-! ### Python string primitives used by the source -/

/-- Python's `x or default` for an optional string: `None` and the empty
string are falsy and give the default. -/
def pyOrStr (o : Option String) (d : String) : String :=
  match o with
  | some s => if s = "" then d else s
  | none => d

/-- Python's `x or None` for a string: the empty string collapses to `None`. -/
def strOrNone (s : String) : Option String :=
  if s = "" then none else some s

/-- `x or None` on an optional string (used for profile fields). -/
def pyOrNone (o : Option String) : Option String :=
  match o with
  | some s => strOrNone s
  | none => none

/-- Byte-wise (memcmp) string comparison on the character lists: the
collation SQLite applies to the TEXT column `created_at`, whose stored
ISO-8601 values are ASCII, so character order and byte order agree. -/
def charListLt : List Char → List Char → Bool
  | _, [] => false
  | [], _ :: _ => true
  | a :: as, b :: bs =>
    if a < b then true
    else if b < a then false
    else charListLt as bs

/-- `charListLt` lifted to `String`. -/
def strLt (a b : String) : Bool :=
  charListLt a.toList b.toList

/-- Python's `str.lower()` (ASCII case folding; the handles and tokens
the bot lower-cases are ASCII). -/
def lowerStr (s : String) : String :=
  String.mk (s.toList.map Char.toLower)

/-- Python's `str.strip()`: remove leading and trailing whitespace. -/
def pyStrip (s : String) : String :=
  String.mk (((s.toList.dropWhile Char.isWhitespace).reverse.dropWhile Char.isWhitespace).reverse)

/-- The character class of the regex `\w` as used in `re.sub(r"@\w+", ...)`,
restricted to the ASCII range (Telegram usernames and the bot's argument
tokens are ASCII). -/
def isWordChar (c : Char) : Bool :=
  c.isAlphanum || c == '_'

/-- Embeds `re.sub(r"@\w+", "", ·)` on the character list: a `@` directly
followed by at least one word character is removed together with the
maximal word-character run after it.  The Boolean state records whether
the scanner is inside a word run being deleted, which keeps the
recursion structural. -/
def stripMentionsAux : Bool → List Char → List Char
  | _, [] => []
  | inRun, c :: rest =>
    if inRun && isWordChar c then stripMentionsAux true rest
    else if c == '@' then
      match rest with
      | [] => ['@']
      | d :: rest2 =>
        if isWordChar d then stripMentionsAux true rest2
        else '@' :: stripMentionsAux false (d :: rest2)
    else c :: stripMentionsAux false rest

/-- `re.sub(r"@\w+", "", s)`. -/
def stripMentions (s : String) : String :=
  String.mk (stripMentionsAux false s.toList)

/-- Python's `str.split()` with no separator: split on whitespace runs,
discarding empty pieces. -/
def pyWords (s : String) : List String :=
  ((s.toList.foldr
      (fun c acc =>
        if c.isWhitespace then [] :: acc
        else
          match acc with
          | [] => [[c]]
          | w :: ws => (c :: w) :: ws)
      []).filter (fun w => ¬ w.isEmpty)).map String.mk

/-- Digit-string parsing used by `parsePyInt`. -/
def parseDigits (cs : List Char) : Option Nat :=
  if cs ≠ [] ∧ cs.all Char.isDigit then
    some (cs.foldl (fun n c => n * 10 + (c.toNat - 48)) 0)
  else none

/-- Embeds Python's `int(token)` on the whitespace-free tokens produced by
`str.split()`: an optional sign followed by decimal digits (underscore
grouping and non-ASCII digits, which never occur in the bot's inputs, are
not accepted). -/
def parsePyInt (s : String) : Option Int :=
  match s.toList with
  | '-' :: rest => (parseDigits rest).map (fun n => -(n : Int))
  | '+' :: rest => (parseDigits rest).map (fun n => (n : Int))
  | cs => (parseDigits cs).map (fun n => (n : Int))

/-- Python string slicing `text[off : off + len]` by code points, as used
on entity offsets. -/
def sliceChars (s : String) (off len : Nat) : String :=
  String.mk ((s.toList.drop off).take len)

/-- `str.lstrip("@")`. -/
def lstripAt (s : String) : String :=
  String.mk (s.toList.dropWhile (fun c => c == '@'))

/-! ### Data model: the two SQLite tables -/

/-- One row of the `warns` table. -/
structure WarnRecord where
  id : Nat
  chat_id : Int
  user_id : Int
  user_name : String
  warn_type : String
  reason : String
  given_by_id : Option Int
  given_by_name : Option String
  created_at : String
deriving DecidableEq, Repr

/-- One row of the `participants` table (primary key `(chat_id, user_id)`). -/
structure ParticipantRow where
  chat_id : Int
  user_id : Int
  username : Option String
  username_lower : Option String
  first_name : Option String
  last_name : Option String
  updated_at : String
deriving DecidableEq, Repr

/-- The persistent store: both tables in rowid order plus the
`AUTOINCREMENT` counter for `warns.id`. -/
structure DB where
  warns : List WarnRecord
  next_id : Nat
  participants : List ParticipantRow
deriving DecidableEq, Repr

/-- The freshly initialised store (`db_init` creates empty tables;
`AUTOINCREMENT` starts handing out ids at 1). -/
def DB.empty : DB := ⟨[], 1, []⟩

/-! ### Telegram-side input types -/

/-- The fields of an aiogram `User` the bot reads. -/
structure TgUser where
  id : Int
  username : Option String
  first_name : String
  last_name : Option String
deriving DecidableEq, Repr

/-- aiogram's `User.full_name`: `first_name` plus `last_name` when the
latter is present and truthy. -/
def TgUser.full_name (u : TgUser) : String :=
  match u.last_name with
  | some s => if s = "" then u.first_name else u.first_name ++ " " ++ s
  | none => u.first_name

/-- The replied-to message, of which only the author is used. -/
structure RepliedMessage where
  from_user : Option TgUser
deriving DecidableEq, Repr

/-- A text entity annotation (`MessageEntity`). -/
structure MessageEntity where
  type : String
  offset : Nat
  length : Nat
  user : Option TgUser
deriving DecidableEq, Repr

/-- The chat a message arrived in. -/
structure Chat where
  id : Int
  type : String
deriving DecidableEq, Repr

/-- The slice of an aiogram `Message` the handlers read.  `from_user` is
required: every handler dereferences `message.from_user.id` first thing.
An absent entity list is identified with the empty list (both are falsy). -/
structure Msg where
  from_user : TgUser
  chat : Chat
  reply_to_message : Option RepliedMessage
  entities : List MessageEntity
  text : Option String
  caption : Option String
deriving DecidableEq, Repr

/-- The resolved subject of a command: both a Telegram `User` and the
`SimpleNamespace(id=…, full_name=…)` built from the participants table
expose exactly `id` and `full_name` to the handlers. -/
structure Target where
  id : Int
  full_name : String
deriving DecidableEq, Repr

/-- View a Telegram user as a command target. -/
def Target.ofUser (u : TgUser) : Target :=
  ⟨u.id, u.full_name⟩

end TgBot

namespace TgBot

/-! ### Warning Ledger -/

/-- The listing order of `ORDER BY created_at DESC, id DESC`: `recLE a b`
holds when `a` may come before `b`, i.e. `a` is at least as recent
(`created_at` compared as TEXT, which for the stored ISO-8601 strings is
the chronological order), with larger `id` first among equal timestamps. -/
def recLE (a b : WarnRecord) : Prop :=
  strLt b.created_at a.created_at = true ∨ (b.created_at = a.created_at ∧ b.id ≤ a.id)

instance : DecidableRel recLE := fun a b => by
  unfold recLE; exact inferInstance

instance : IsTotal WarnRecord recLE where
  total a b := by
    have key : ∀ (x y : List Char), charListLt x y = false → charListLt y x = false → x = y := by
      intro x
      induction x with
      | nil =>
        intro y hxy hyx
        cases y with
        | nil => rfl
        | cons b bs => simp [charListLt] at hxy
      | cons a as ih =>
        intro y hxy hyx
        cases y with
        | nil => simp [charListLt] at hyx
        | cons b bs =>
          simp only [charListLt] at hxy hyx
          rcases lt_trichotomy a b with hab | rfl | hab
          · rw [if_pos hab] at hxy
            simp at hxy
          · rw [if_neg (lt_irrefl a), if_neg (lt_irrefl a)] at hxy hyx
            rw [ih bs hxy hyx]
          · rw [if_pos hab] at hyx
            simp at hyx
    cases h1 : strLt b.created_at a.created_at with
    | true => exact Or.inl (Or.inl h1)
    | false =>
      cases h2 : strLt a.created_at b.created_at with
      | true => exact Or.inr (Or.inl h2)
      | false =>
        have he : b.created_at = a.created_at := String.ext (key _ _ h1 h2)
        rcases Nat.le_total b.id a.id with hid | hid
        · exact Or.inl (Or.inr ⟨he, hid⟩)
        · exact Or.inr (Or.inr ⟨he.symm, hid⟩)

instance : IsTrans WarnRecord recLE where
  trans a b c hab hbc := by
    have key : ∀ (z x y : List Char),
        charListLt x y = true → charListLt y z = true → charListLt x z = true := by
      intro z
      induction z with
      | nil =>
        intro x y h1 h2
        cases y <;> simp [charListLt] at h2
      | cons cz cs ih =>
        intro x y h1 h2
        cases x with
        | nil => rfl
        | cons ax as =>
          cases y with
          | nil => simp [charListLt] at h1
          | cons b1 bs =>
            simp only [charListLt] at h1 h2 ⊢
            rcases lt_trichotomy ax b1 with h | rfl | h
            · rcases lt_trichotomy b1 cz with h2c | rfl | h2c
              · rw [if_pos (lt_trans h h2c)]
              · rw [if_pos h]
              · rw [if_neg (lt_asymm h2c), if_pos h2c] at h2
                simp at h2
            · rw [if_neg (lt_irrefl ax), if_neg (lt_irrefl ax)] at h1
              rcases lt_trichotomy ax cz with h2c | rfl | h2c
              · rw [if_pos h2c]
              · rw [if_neg (lt_irrefl ax), if_neg (lt_irrefl ax)] at h2 ⊢
                exact ih as bs h1 h2
              · rw [if_neg (lt_asymm h2c), if_pos h2c] at h2
                simp at h2
            · rw [if_neg (lt_asymm h), if_pos h] at h1
              simp at h1
    rcases hab with hab | ⟨hab1, hab2⟩
    · rcases hbc with hbc | ⟨hbc1, hbc2⟩
      · exact Or.inl (key _ _ _ hbc hab)
      · exact Or.inl (by rw [hbc1]; exact hab)
    · rcases hbc with hbc | ⟨hbc1, hbc2⟩
      · exact Or.inl (by rw [← hab1]; exact hbc)
      · exact Or.inr ⟨hbc1.trans hab1, le_trans hbc2 hab2⟩

/-- `ORDER BY created_at DESC, id DESC`.  Under the ledger invariant the
sort keys are distinct, so the sorted list is algorithm-independent. -/
def sortListing (l : List WarnRecord) : List WarnRecord :=
  l.insertionSort recLE

/-- `WHERE chat_id = ? AND user_id = ?`. -/
def warnMatches (chat user : Int) (r : WarnRecord) : Bool :=
  r.chat_id == chat && r.user_id == user

/-- `add_warn`: inserts one row; the `CHECK (warn_type IN ('warn','hard'))`
constraint makes the insert fail (`none`) for any other kind. -/
def add_warn (st : DB) (chat_id user_id : Int) (user_name warn_type : String)
    (reason : Option String) (given_by_id : Option Int)
    (given_by_name : Option String) (created_at : String) : Option DB :=
  if warn_type = "warn" ∨ warn_type = "hard" then
    some { st with
      warns := st.warns ++
        [⟨st.next_id, chat_id, user_id, user_name, warn_type, reason.getD "",
          given_by_id, given_by_name, created_at⟩],
      next_id := st.next_id + 1 }
  else none

/-- `get_user_warns`: the user's rows in listing order (the SQL projects
five columns; the embedding returns the whole records). -/
def get_user_warns (st : DB) (chat user : Int) : List WarnRecord :=
  sortListing (st.warns.filter (warnMatches chat user))

/-- `get_user_counts`: `GROUP BY warn_type` then `data.get("warn", 0),
data.get("hard", 0)`. -/
def get_user_counts (st : DB) (chat user : Int) : Nat × Nat :=
  ((st.warns.filter (fun r => warnMatches chat user r && r.warn_type == "warn")).length,
   (st.warns.filter (fun r => warnMatches chat user r && r.warn_type == "hard")).length)

/-- Ordering of the chat summary: total descending, then severe count
descending. -/
def summaryLE (a b : Int × String × Nat × Nat) : Prop :=
  b.2.2.1 + b.2.2.2 < a.2.2.1 + a.2.2.2 ∨
    (b.2.2.1 + b.2.2.2 = a.2.2.1 + a.2.2.2 ∧ b.2.2.2 ≤ a.2.2.2)

instance : DecidableRel summaryLE := fun a b => by
  unfold summaryLE; exact inferInstance

/-- `get_all_counts`: per-user aggregation over one chat.  The pre-`ORDER
BY` grouping order is not fixed by SQLite; it is modelled as first
appearance in the table. -/
def get_all_counts (st : DB) (chat : Int) : List (Int × String × Nat × Nat) :=
  let rows := st.warns.filter (fun r => r.chat_id == chat)
  let users := (rows.map (·.user_id)).dedup
  let summary := users.map (fun u =>
    let mine := rows.filter (fun r => r.user_id == u)
    (u, (mine.map (·.user_name)).foldl max "",
     (mine.filter (fun r => r.warn_type == "warn")).length,
     (mine.filter (fun r => r.warn_type == "hard")).length))
  summary.insertionSort summaryLE

/-- SQLite `LIMIT n`: a negative bound means no limit. -/
def limitTake (n : Int) (l : List α) : List α :=
  if n < 0 then l else l.take n.toNat

/-- `amnesty_partial`: `DELETE … WHERE id IN (SELECT id … ORDER BY
created_at DESC, id DESC LIMIT count)`; kinds other than `warn`/`hard`
(notably `all`) drop the `warn_type` filter. -/
def amnesty_partial (st : DB) (chat user : Int) (count : Int) (kind : String) : DB :=
  if kind = "warn" ∨ kind = "hard" then
    let ids := (limitTake count (sortListing
      (st.warns.filter (fun r => warnMatches chat user r && r.warn_type == kind)))).map (·.id)
    { st with warns := st.warns.filter (fun r => ! ids.contains r.id) }
  else
    let ids := (limitTake count (sortListing
      (st.warns.filter (warnMatches chat user)))).map (·.id)
    { st with warns := st.warns.filter (fun r => ! ids.contains r.id) }

/-- `amnesty_full`: `DELETE FROM warns WHERE chat_id = ? AND user_id = ?`. -/
def amnesty_full (st : DB) (chat user : Int) : DB :=
  { st with warns := st.warns.filter (fun r => ! warnMatches chat user r) }

/-- Arguments of one `add_warn` call, for reasoning about call sequences. -/
structure AddArgs where
  chat_id : Int
  user_id : Int
  user_name : String
  warn_type : String
  reason : Option String
  given_by_id : Option Int
  given_by_name : Option String
  created_at : String
deriving DecidableEq, Repr

/-- Run one `add_warn` call described by `AddArgs`. -/
def applyAddWarn (st : DB) (a : AddArgs) : Option DB :=
  add_warn st a.chat_id a.user_id a.user_name a.warn_type a.reason
    a.given_by_id a.given_by_name a.created_at

/-- Run a sequence of `add_warn` calls; `none` as soon as one violates the
`warn_type` constraint. -/
def applyWarnOps : DB → List AddArgs → Option DB
  | st, [] => some st
  | st, a :: ops =>
    match applyAddWarn st a with
    | some st2 => applyWarnOps st2 ops
    | none => none

/-! ### Participant Directory -/

/-- The row `participant_upsert` writes: profile fields normalised with
`or None`, the handle additionally lower-cased for the lookup column. -/
def mkParticipantRow (chat_id : Int) (u : TgUser) (now : String) : ParticipantRow :=
  let username := pyOrNone u.username
  let username_lower := strOrNone (lowerStr (pyOrStr username ""))
  ⟨chat_id, u.id, username, username_lower, strOrNone u.first_name,
    pyOrNone u.last_name, now⟩

/-- `INSERT … ON CONFLICT(chat_id, user_id) DO UPDATE`: the existing row
keeps its position (rowid) and is overwritten; otherwise the row is
appended. -/
def upsertRow (row : ParticipantRow) : List ParticipantRow → List ParticipantRow
  | [] => [row]
  | r :: rs =>
    if r.chat_id = row.chat_id ∧ r.user_id = row.user_id then row :: rs
    else r :: upsertRow row rs

/-- `participant_upsert`: no-op without a user. -/
def participant_upsert (st : DB) (chat_id : Int) (user : Option TgUser) (now : String) : DB :=
  match user with
  | none => st
  | some u => { st with participants := upsertRow (mkParticipantRow chat_id u now) st.participants }

/-- `find_participant_by_username`: `fetchone` of the exact-match lookup,
then the display name `" ".join(first, last) or "@username" or "user"`. -/
def find_participant_by_username (st : DB) (chat_id : Int) (username_lower : String) : Option Target :=
  match st.participants.find?
      (fun r => r.chat_id == chat_id && r.username_lower == some username_lower) with
  | none => none
  | some r =>
    let joined := String.intercalate " "
      (([r.first_name, r.last_name].filterMap id).filter (fun s => s ≠ ""))
    let full_name :=
      if joined ≠ "" then joined
      else
        match r.username with
        | some un => if un = "" then "user" else "@" ++ un
        | none => "user"
    some ⟨r.user_id, full_name⟩

/-! ### Target Resolver -/

/-- `track_message_participants`: upsert the author, then the replied-to
author when present. -/
def track_message_participants (st : DB) (m : Msg) (now : String) : DB :=
  let st1 := participant_upsert st m.chat.id (some m.from_user) now
  match m.reply_to_message with
  | some rm =>
    match rm.from_user with
    | some u => participant_upsert st1 m.chat.id (some u) now
    | none => st1
  | none => st1

/-- `extract_mention_username`: the last `mention` entity's slice of the
raw text, with leading `@` and surrounding whitespace removed; empty
results collapse to `none`. -/
def extract_mention_username (m : Msg) : Option String :=
  if m.entities = [] then none
  else
    let text := pyOrStr m.text (pyOrStr m.caption "")
    let mentions := m.entities.filterMap
      (fun e => if e.type = "mention" then some (sliceChars text e.offset e.length) else none)
    match mentions.getLast? with
    | none => none
    | some mtext => strOrNone (pyStrip (lstripAt mtext))

/-- The first `text_mention` entity carrying a user, as scanned by the
loop in `extract_target_user`. -/
def firstTextMentionUser (m : Msg) : Option TgUser :=
  (m.entities.filterMap (fun e => if e.type = "text_mention" then e.user else none)).head?

/-- `extract_target_user`: reply author, else resolved `text_mention`
user, else directory lookup of the last plain `@handle`, else no target. -/
def extract_target_user (st : DB) (m : Msg) : Option Target :=
  match m.reply_to_message.bind RepliedMessage.from_user with
  | some u => some (Target.ofUser u)
  | none =>
    match firstTextMentionUser m with
    | some u => some (Target.ofUser u)
    | none =>
      match extract_mention_username m with
      | some uname => find_participant_by_username st m.chat.id (lowerStr uname)
      | none => none

/-- `clean_reason`: strip `@handle` tokens from the free-text arguments
and trim. -/
def clean_reason (args : Option String) : String :=
  match args with
  | none => ""
  | some s => if s = "" then "" else pyStrip (stripMentions s)

/-! ### Access Guard -/

/-- The hardcoded allow-list. -/
def ALLOWED_USER_IDS : List Int :=
  [578664673, 921799469, 5253999365, 824111058]

/-- `is_allowed`. -/
def is_allowed (user_id : Option Int) : Bool :=
  match user_id with
  | some i => ALLOWED_USER_IDS.contains i
  | none => false

/-- The outcome of the one awaited platform call `bot.get_chat_member`:
a status, a `TelegramBadRequest`, or any other raised exception. -/
inductive ChatMemberResult where
  | ok (status : String)
  | badRequest
  | otherFailure
deriving DecidableEq, Repr

/-- `is_admin`: the status check, with only `TelegramBadRequest` caught;
`none` embeds an exception escaping the function. -/
def isAdminOutcome : ChatMemberResult → Option Bool
  | .ok status => some (status == "administrator" || status == "creator")
  | .badRequest => some false
  | .otherFailure => none

end TgBot

namespace TgBot

/-! ### Command handlers

Each handler is a function of the membership oracle `gm` (the result the
platform would return for `get_chat_member chat user`), the store, the
incoming message, the free-text command arguments and the current
timestamp.  The produced `Reply` names which of the handler's formatted
answers is sent; handlers that await `is_admin` return `none` when the
uncaught exception of the membership call escapes. -/

/-- The formatted text answers a handler can send, by identity. -/
inductive Reply where
  | accessDenied
  | startInfo
  | helpInfo
  | groupsOnly
  | adminOnly
  | askTarget
  | badArgs
  | warnIssued (target_id : Int) (target_name : String) (reason : String) (severe : Bool)
  | noWarns (user_id : Int) (user_name : String)
  | warnsList (user_id : Int) (user_name : String) (warn_cnt hard_cnt : Nat)
      (shown : List WarnRecord) (omitted : Nat)
  | chatEmpty
  | chatSummary (rows : List (Int × String × Nat × Nat))
  | amnestyApplied (target_id : Int) (count : Int) (kind : String) (warn_cnt hard_cnt : Nat)
  | fullAmnestyApplied (target_id : Int)
deriving DecidableEq, Repr

/-- Whether `message.chat.type` is `group` or `supergroup`. -/
def isGroupChat (m : Msg) : Bool :=
  m.chat.type == "group" || m.chat.type == "supergroup"

/-- `on_start`. -/
def on_start (st : DB) (m : Msg) (now : String) : DB × Reply :=
  if !(is_allowed (some m.from_user.id)) then (st, .accessDenied)
  else (track_message_participants st m now, .startInfo)

/-- `on_help`. -/
def on_help (st : DB) (m : Msg) (now : String) : DB × Reply :=
  if !(is_allowed (some m.from_user.id)) then (st, .accessDenied)
  else (track_message_participants st m now, .helpInfo)

/-- Common body of `cmd_warn` and `cmd_hardwarn`, differing only in the
inserted kind and the severe flag of the confirmation message. -/
def warnHandler (severe : Bool) (gm : Int → Int → ChatMemberResult) (st : DB) (m : Msg)
    (args : Option String) (now : String) : Option (DB × Reply) :=
  if !(is_allowed (some m.from_user.id)) then some (st, .accessDenied)
  else
    let st1 := track_message_participants st m now
    if !(isGroupChat m) then some (st1, .groupsOnly)
    else
      match isAdminOutcome (gm m.chat.id m.from_user.id) with
      | none => none
      | some false => some (st1, .adminOnly)
      | some true =>
        match extract_target_user st1 m with
        | none => some (st1, .askTarget)
        | some t =>
          let reason := clean_reason args
          let tname := pyOrStr (some t.full_name) "user"
          match add_warn st1 m.chat.id t.id tname (if severe then "hard" else "warn")
              (some reason) (some m.from_user.id) (some m.from_user.full_name) now with
          | none => none
          | some st2 => some (st2, .warnIssued t.id tname reason severe)

/-- `cmd_warn`. -/
def cmd_warn (gm : Int → Int → ChatMemberResult) (st : DB) (m : Msg)
    (args : Option String) (now : String) : Option (DB × Reply) :=
  warnHandler false gm st m args now

/-- `cmd_hardwarn`. -/
def cmd_hardwarn (gm : Int → Int → ChatMemberResult) (st : DB) (m : Msg)
    (args : Option String) (now : String) : Option (DB × Reply) :=
  warnHandler true gm st m args now

/-- The listing `cmd_warns` produces for its subject once resolved:
either "no warnings" or counts plus the first 20 records and the count of
the omitted rest. -/
def warnsReplyFor (st : DB) (chat_id : Int) (t : Target) : Reply :=
  let rows := get_user_warns st chat_id t.id
  let counts := get_user_counts st chat_id t.id
  if rows = [] then .noWarns t.id t.full_name
  else .warnsList t.id t.full_name counts.1 counts.2 (rows.take 20)
    (if rows.length > 20 then rows.length - 20 else 0)

/-- `cmd_warns`: read-only, no group/admin gate; a failed resolution
falls back to the sender (`user = target or message.from_user`). -/
def cmd_warns (st : DB) (m : Msg) (now : String) : DB × Reply :=
  if !(is_allowed (some m.from_user.id)) then (st, .accessDenied)
  else
    let st1 := track_message_participants st m now
    let t := (extract_target_user st1 m).getD (Target.ofUser m.from_user)
    (st1, warnsReplyFor st1 m.chat.id t)

/-- `cmd_allwarns`. -/
def cmd_allwarns (st : DB) (m : Msg) (now : String) : DB × Reply :=
  if !(is_allowed (some m.from_user.id)) then (st, .accessDenied)
  else
    let st1 := track_message_participants st m now
    let data := get_all_counts st1 m.chat.id
    if data = [] then (st1, .chatEmpty) else (st1, .chatSummary data)

/-- The argument parsing of `cmd_amnesty`: `count` from the first token
(`None` when unparsable), the scope from the second token only when it is
one of `warn`/`hard`/`all` (case-insensitively), else the default `all`. -/
def parseAmnestyArgs (argsS : String) : Option Int × String :=
  if argsS = "" then (none, "all")
  else
    match pyWords (stripMentions argsS) with
    | [] => (none, "all")
    | p0 :: rest =>
      (parsePyInt p0,
        match rest with
        | [] => "all"
        | p1 :: _ =>
          if lowerStr p1 = "warn" ∨ lowerStr p1 = "hard" ∨ lowerStr p1 = "all" then lowerStr p1
          else "all")

/-- `cmd_amnesty`. -/
def cmd_amnesty (gm : Int → Int → ChatMemberResult) (st : DB) (m : Msg)
    (args : Option String) (now : String) : Option (DB × Reply) :=
  if !(is_allowed (some m.from_user.id)) then some (st, .accessDenied)
  else
    let st1 := track_message_participants st m now
    if !(isGroupChat m) then some (st1, .groupsOnly)
    else
      match isAdminOutcome (gm m.chat.id m.from_user.id) with
      | none => none
      | some false => some (st1, .adminOnly)
      | some true =>
        match extract_target_user st1 m with
        | none => some (st1, .askTarget)
        | some t =>
          let argsS := pyStrip (pyOrStr args "")
          let parsed := parseAmnestyArgs argsS
          match parsed.1 with
          | none => some (st1, .badArgs)
          | some c =>
            if c ≤ 0 then some (st1, .badArgs)
            else
              let st2 := amnesty_partial st1 m.chat.id t.id c parsed.2
              let counts := get_user_counts st2 m.chat.id t.id
              some (st2, .amnestyApplied t.id c parsed.2 counts.1 counts.2)

/-- `cmd_full_amnesty`. -/
def cmd_full_amnesty (gm : Int → Int → ChatMemberResult) (st : DB) (m : Msg)
    (now : String) : Option (DB × Reply) :=
  if !(is_allowed (some m.from_user.id)) then some (st, .accessDenied)
  else
    let st1 := track_message_participants st m now
    if !(isGroupChat m) then some (st1, .groupsOnly)
    else
      match isAdminOutcome (gm m.chat.id m.from_user.id) with
      | none => none
      | some false => some (st1, .adminOnly)
      | some true =>
        match extract_target_user st1 m with
        | none => some (st1, .askTarget)
        | some t => some (amnesty_full st1 m.chat.id t.id, .fullAmnestyApplied t.id)

/-! ### Invariants -/

/-- The ledger invariant maintained by the schema: `id` is a primary key
(no duplicates) and `warn_type` satisfies the CHECK constraint. -/
def WF (st : DB) : Prop :=
  (st.warns.map (·.id)).Nodup ∧
    ∀ r ∈ st.warns, r.warn_type = "warn" ∨ r.warn_type = "hard"

instance (st : DB) : Decidable (WF st) := by
  unfold WF; exact inferInstance

end TgBot

namespace TgBot

/-! ### Statement abbreviations and concrete demonstration data

The `…OK` predicates below package the verified contracts so that the
theorems and their concrete instantiations can share one statement. -/

/-- The rows a partial amnesty of scope `kind` for `(chat, user)`
qualifies for deletion: the `WHERE` clause of the inner `SELECT`. -/
def qualB (chat user : Int) (kind : String) (r : WarnRecord) : Bool :=
  warnMatches chat user r &&
    (if kind = "warn" ∨ kind = "hard" then r.warn_type == kind else true)

/-- Contract of `amnesty_partial st chat user n kind`: among the
qualifying rows exactly the `n` most recent (listing order) disappear,
non-qualifying rows all survive, nothing is added, the user's total
count drops by `min n (#qualifying)`, and the participants table is
untouched. -/
def AmnestyPartialOK (st : DB) (chat user : Int) (n : Int) (kind : String) : Prop :=
  (( amnesty_partial st chat user n kind).warns.filter (qualB chat user kind)).Perm
      ((sortListing (st.warns.filter (qualB chat user kind))).drop n.toNat) ∧
  (∀ r ∈ st.warns, qualB chat user kind r = false →
    r ∈ ( amnesty_partial st chat user n kind).warns) ∧
  (∀ r ∈ ( amnesty_partial st chat user n kind).warns, r ∈ st.warns) ∧
  ((get_user_counts ( amnesty_partial st chat user n kind) chat user).1 +
      (get_user_counts ( amnesty_partial st chat user n kind) chat user).2 =
    (get_user_counts st chat user).1 + (get_user_counts st chat user).2 -
      min n.toNat (st.warns.filter (qualB chat user kind)).length) ∧
  ( amnesty_partial st chat user n kind).participants = st.participants

/-- Contract of a completed `add_warn` sequence: per-kind counts for one
`(chat, user)` grow by exactly the matching insertions, and an empty
per-kind row set counts as `0`. -/
def AddCountsOK (st st2 : DB) (ops : List AddArgs) (chat user : Int) : Prop :=
  (get_user_counts st2 chat user).1 = (get_user_counts st chat user).1 +
    (ops.filter (fun a => a.chat_id == chat && a.user_id == user && a.warn_type == "warn")).length ∧
  (get_user_counts st2 chat user).2 = (get_user_counts st chat user).2 +
    (ops.filter (fun a => a.chat_id == chat && a.user_id == user && a.warn_type == "hard")).length ∧
  (st2.warns.filter (fun r => warnMatches chat user r && r.warn_type == "warn") = [] →
    (get_user_counts st2 chat user).1 = 0) ∧
  (st2.warns.filter (fun r => warnMatches chat user r && r.warn_type == "hard") = [] →
    (get_user_counts st2 chat user).2 = 0)

/-- Contract of `extract_target_user`: the three strategies in order,
short-circuiting at the first success. -/
def ExtractTargetOK (st : DB) (m : Msg) : Prop :=
  (∀ u, m.reply_to_message.bind RepliedMessage.from_user = some u →
    extract_target_user st m = some (Target.ofUser u)) ∧
  (m.reply_to_message.bind RepliedMessage.from_user = none →
    ∀ u, firstTextMentionUser m = some u →
      extract_target_user st m = some (Target.ofUser u)) ∧
  (m.reply_to_message.bind RepliedMessage.from_user = none →
    firstTextMentionUser m = none →
    extract_target_user st m = (extract_mention_username m).bind
      (fun un => find_participant_by_username st m.chat.id (lowerStr un))) ∧
  (m.reply_to_message.bind RepliedMessage.from_user = none →
    firstTextMentionUser m = none → extract_mention_username m = none →
    extract_target_user st m = none)

/-- Contract of `get_user_warns`: listing order (newest first, `id`
descending among equal timestamps), exactly the rows of the pair, and
reads depend only on the `warns` table, so repeated reads with no
intervening writes agree. -/
def GetWarnsOK (st : DB) (chat user : Int) : Prop :=
  List.Sorted recLE (get_user_warns st chat user) ∧
  (∀ r, r ∈ get_user_warns st chat user ↔
    r ∈ st.warns ∧ warnMatches chat user r = true) ∧
  (∀ st2 : DB, st2.warns = st.warns →
    get_user_warns st2 chat user = get_user_warns st chat user)

/-- Contract of the access gates: an allow-list denial answers the
denial message with the store completely untouched, while an admin-gate
denial answers the denial message with the warning ledger untouched but
the participant tracking of the sender (and replied-to author) already
performed. -/
def DenialNoLedgerChange (gm : Int → Int → ChatMemberResult) (st : DB) (m : Msg)
    (args : Option String) (now : String) : Prop :=
  (is_allowed (some m.from_user.id) = false →
    on_start st m now = (st, .accessDenied) ∧
    on_help st m now = (st, .accessDenied) ∧
    cmd_warn gm st m args now = some (st, .accessDenied) ∧
    cmd_hardwarn gm st m args now = some (st, .accessDenied) ∧
    cmd_warns st m now = (st, .accessDenied) ∧
    cmd_allwarns st m now = (st, .accessDenied) ∧
    cmd_amnesty gm st m args now = some (st, .accessDenied) ∧
    cmd_full_amnesty gm st m now = some (st, .accessDenied)) ∧
  (is_allowed (some m.from_user.id) = true →
    isGroupChat m = true →
    isAdminOutcome (gm m.chat.id m.from_user.id) = some false →
    cmd_warn gm st m args now = some (track_message_participants st m now, .adminOnly) ∧
    cmd_hardwarn gm st m args now = some (track_message_participants st m now, .adminOnly) ∧
    cmd_amnesty gm st m args now = some (track_message_participants st m now, .adminOnly) ∧
    cmd_full_amnesty gm st m now = some (track_message_participants st m now, .adminOnly) ∧
    (track_message_participants st m now).warns = st.warns ∧
    (track_message_participants st m now).next_id = st.next_id)

/-- Contract of a failed target resolution: each mutating handler sends
the clarification prompt with the warning ledger untouched, while
`cmd_warns` substitutes the sender as its subject. -/
def ResolutionFailureOK (gm : Int → Int → ChatMemberResult) (st : DB) (m : Msg)
    (args : Option String) (now : String) : Prop :=
  cmd_warn gm st m args now = some (track_message_participants st m now, .askTarget) ∧
  cmd_hardwarn gm st m args now = some (track_message_participants st m now, .askTarget) ∧
  cmd_amnesty gm st m args now = some (track_message_participants st m now, .askTarget) ∧
  cmd_full_amnesty gm st m now = some (track_message_participants st m now, .askTarget) ∧
  (track_message_participants st m now).warns = st.warns ∧
  (track_message_participants st m now).next_id = st.next_id ∧
  cmd_warns st m now = (track_message_participants st m now,
    warnsReplyFor (track_message_participants st m now) m.chat.id (Target.ofUser m.from_user))

/-- Contract of `cmd_amnesty` on an unrecognised scope token: the scope
silently defaults to `all` and the command is applied, not rejected. -/
def UnknownScopeOK (gm : Int → Int → ChatMemberResult) (st : DB) (m : Msg)
    (args : Option String) (now : String) (t : Target) (c : Int) : Prop :=
  parseAmnestyArgs (pyStrip (pyOrStr args "")) = (some c, "all") ∧
  cmd_amnesty gm st m args now =
    some ( amnesty_partial (track_message_participants st m now) m.chat.id t.id c "all",
      .amnestyApplied t.id c "all"
        (get_user_counts ( amnesty_partial (track_message_participants st m now)
          m.chat.id t.id c "all") m.chat.id t.id).1
        (get_user_counts ( amnesty_partial (track_message_participants st m now)
          m.chat.id t.id c "all") m.chat.id t.id).2)

/-- Contract of `amnesty_full`: the pair's rows all disappear, every
other pair's listing and counts are untouched, as is the participants
table. -/
def AmnestyFullOK (st : DB) (chat user : Int) : Prop :=
  get_user_warns (amnesty_full st chat user) chat user = [] ∧
  get_user_counts (amnesty_full st chat user) chat user = (0, 0) ∧
  (∀ c u : Int, ¬(c = chat ∧ u = user) →
    get_user_warns (amnesty_full st chat user) c u = get_user_warns st c u ∧
    get_user_counts (amnesty_full st chat user) c u = get_user_counts st c u) ∧
  (amnesty_full st chat user).participants = st.participants ∧
  (amnesty_full st chat user).next_id = st.next_id

/-! #### Concrete demonstration data -/

/-- Membership oracle answering `administrator` for everyone. -/
def gmAdminAll : Int → Int → ChatMemberResult := fun _ _ => .ok "administrator"

/-- Membership oracle answering plain `member` for everyone. -/
def gmMemberAll : Int → Int → ChatMemberResult := fun _ _ => .ok "member"

/-- An allow-listed operator. -/
def uOlga : TgUser := ⟨578664673, some "olga", "Olga", none⟩

/-- A chat member with a mixed-case handle. -/
def uCarol : TgUser := ⟨777, some "Carol", "Carol", none⟩

/-- A sender who is not on the allow-list. -/
def uZed : TgUser := ⟨999, none, "Zed", none⟩

/-- A group chat. -/
def gChat : Chat := ⟨-100500, "group"⟩

/-- `/warn` from an operator with no reply, no entities: no target. -/
def msgPlain : Msg := ⟨uOlga, gChat, none, [], some "/warn", none⟩

/-- `/warn` from a non-allow-listed sender. -/
def msgZed : Msg := ⟨uZed, gChat, none, [], some "/warn", none⟩

/-- `/warn late` sent as a reply to a message of Carol. -/
def msgReplyCarol : Msg := ⟨uOlga, gChat, some ⟨some uCarol⟩, [], some "/warn late", none⟩

/-- A reply to Carol that simultaneously carries a plain `@dave` mention
entity (offset 6, length 5 against the raw text). -/
def msgReplyAndMention : Msg :=
  ⟨uOlga, gChat, some ⟨some uCarol⟩, [⟨"mention", 6, 5, none⟩], some "/warn @dave", none⟩

/-- Sample ledger rows for the pair `(5, 7)` and one row of `(5, 8)`. -/
def w1 : WarnRecord := ⟨1, 5, 7, "Carol", "warn", "one", some 578664673, some "Olga", "2024-01-01T10:00:00"⟩

/-- Second sample row (severe, newer). -/
def w2 : WarnRecord := ⟨2, 5, 7, "Carol", "hard", "two", some 578664673, some "Olga", "2024-01-02T10:00:00"⟩

/-- Third sample row (standard, newest). -/
def w3 : WarnRecord := ⟨3, 5, 7, "Carol", "warn", "three", some 578664673, some "Olga", "2024-01-03T10:00:00"⟩

/-- A row of a different user in the same chat. -/
def w4 : WarnRecord := ⟨4, 5, 8, "Dave", "warn", "", none, none, "2024-01-01T09:00:00"⟩

/-- A sample store holding `w1…w4`. -/
def demoDB : DB := ⟨[w1, w2, w3, w4], 5, []⟩

/-- A sample `add_warn` call sequence touching two users. -/
def demoOps : List AddArgs :=
  [⟨5, 7, "Carol", "warn", some "late", some 578664673, some "Olga", "2024-02-01T00:00:00"⟩,
   ⟨5, 9, "Eve", "hard", none, none, none, "2024-02-02T00:00:00"⟩,
   ⟨5, 7, "Carol", "hard", some "", none, none, "2024-02-03T00:00:00"⟩]

/-- The store after running `demoOps` on `demoDB`. -/
def demoDB3 : DB := (applyWarnOps demoDB demoOps).getD DB.empty

end TgBot

namespace TgBot

/-! ### Helper lemmas -/

/-- Rows of a different `(chat, user)` pair never match. -/
theorem warnMatches_ne_pair {chat user c u : Int} (hcu : ¬(c = chat ∧ u = user))
    {x : WarnRecord} (h : warnMatches c u x = true) : warnMatches chat user x = false := by
  unfold warnMatches at h ⊢
  rw [Bool.and_eq_true] at h
  obtain ⟨h1, h2⟩ := h
  rw [beq_iff_eq] at h1 h2
  by_contra hne
  simp only [Bool.not_eq_false, Bool.and_eq_true, beq_iff_eq] at hne
  exact hcu ⟨h1.symm.trans hne.1, h2.symm.trans hne.2⟩

/-! ### C7: failure behaviour of the admin check -/

/-- C7 counterexample: a membership-lookup failure that is not a
`TelegramBadRequest` does not yield "not admin" — `is_admin` lets it
escape (`none`), contradicting the claim that every failure returns
false and cannot crash the handler. -/
theorem is_admin_other_failure_escapes :
    isAdminOutcome ChatMemberResult.otherFailure = none ∧
      isAdminOutcome ChatMemberResult.otherFailure ≠ some false := by
  decide

/-- C7 (amended): a `TelegramBadRequest` failure of the membership query
degrades to "not admin"; a successful query reduces to the status test;
any other raised exception propagates out of `is_admin`. -/
theorem is_admin_failure_behavior :
    isAdminOutcome ChatMemberResult.badRequest = some false ∧
    isAdminOutcome ChatMemberResult.otherFailure = none ∧
    ∀ s : String, isAdminOutcome (ChatMemberResult.ok s) =
      some (s == "administrator" || s == "creator") :=
  ⟨rfl, rfl, fun _ => rfl⟩

/-! ### C4: target-resolution precedence -/

/-- C4: `extract_target_user` tries the reply author first (even when
mention entities are present), then the first `text_mention` user, then
the directory lookup of the last plain `@handle`, and fails only when
all three fail. -/
theorem extract_target_precedence (st : DB) (m : Msg) : ExtractTargetOK st m := by
  refine ⟨?_, ?_, ?_, ?_⟩
  · intro u h
    unfold extract_target_user
    rw [h]
  · intro h u h2
    unfold extract_target_user
    rw [h, h2]
  · intro h h2
    unfold extract_target_user
    rw [h, h2]
    cases hm : extract_mention_username m <;> simp [hm]
  · intro h h2 h3
    unfold extract_target_user
    rw [h, h2, h3]

/-- C4 witness: in a message that is a reply to Carol and also carries a
plain `@dave` mention entity, the reply wins. -/
theorem extract_target_precedence_witness :
    extract_target_user DB.empty msgReplyAndMention = some (Target.ofUser uCarol) :=
  (extract_target_precedence DB.empty msgReplyAndMention).1 uCarol (by decide)

/-! ### C5: listing order -/

/-- C5: `get_user_warns` returns exactly the pair's rows, sorted newest
first with `id` descending among equal timestamps, and reads depend only
on the `warns` table (so repeated reads with no intervening writes
agree). -/
theorem get_user_warns_ordered (st : DB) (chat user : Int) : GetWarnsOK st chat user := by
  refine ⟨?_, ?_, ?_⟩
  · exact List.sorted_insertionSort recLE _
  · intro r
    simp [get_user_warns, sortListing, List.mem_insertionSort, List.mem_filter]
  · intro st2 h
    unfold get_user_warns
    rw [h]

/-- C5 witness: on the sample ledger the pair `(5, 7)` lists as
`[w3, w2, w1]` — newest first — and the contract holds there. -/
theorem get_user_warns_ordered_witness :
    get_user_warns demoDB 5 7 = [w3, w2, w1] ∧ GetWarnsOK demoDB 5 7 :=
  ⟨by decide, get_user_warns_ordered demoDB 5 7⟩

/-! ### C9: full amnesty -/

/-- C9: `amnesty_full` empties the pair's listing and counts and leaves
every other pair's listing, counts, the participants table and the id
counter unchanged. -/
theorem amnesty_full_clears (st : DB) (chat user : Int) : AmnestyFullOK st chat user := by
  refine ⟨?_, ?_, ?_, rfl, rfl⟩
  · unfold get_user_warns amnesty_full sortListing
    rw [List.filter_filter]
    have h0 : st.warns.filter (fun a => warnMatches chat user a && !warnMatches chat user a) = [] :=
      List.filter_eq_nil_iff.mpr (fun a _ => by cases h : warnMatches chat user a <;> simp [h])
    rw [h0]
    rfl
  · unfold get_user_counts amnesty_full
    rw [List.filter_filter, List.filter_filter]
    have h1 : st.warns.filter
        (fun a => (warnMatches chat user a && a.warn_type == "warn") && !warnMatches chat user a) = [] :=
      List.filter_eq_nil_iff.mpr (fun a _ => by cases h : warnMatches chat user a <;> simp [h])
    have h2 : st.warns.filter
        (fun a => (warnMatches chat user a && a.warn_type == "hard") && !warnMatches chat user a) = [] :=
      List.filter_eq_nil_iff.mpr (fun a _ => by cases h : warnMatches chat user a <;> simp [h])
    rw [h1, h2]
    rfl
  · intro c u hcu
    have hframe : ∀ (p : WarnRecord → Bool), (∀ x, p x = true → warnMatches c u x = true) →
        (st.warns.filter (fun r => !warnMatches chat user r)).filter p = st.warns.filter p := by
      intro p hp
      rw [List.filter_filter]
      apply List.filter_congr
      intro x _
      cases hpx : p x
      · simp
      · have hfalse := warnMatches_ne_pair hcu (hp x hpx)
        simp [hfalse]
    constructor
    · unfold get_user_warns amnesty_full
      rw [hframe (warnMatches c u) (fun x h => h)]
    · unfold get_user_counts amnesty_full
      rw [hframe (fun r => warnMatches c u r && r.warn_type == "warn")
            (fun x h => by
              simp only [Bool.and_eq_true] at h
              exact h.1),
          hframe (fun r => warnMatches c u r && r.warn_type == "hard")
            (fun x h => by
              simp only [Bool.and_eq_true] at h
              exact h.1)]

/-- C9 witness: clearing `(5, 7)` on the sample ledger empties that
pair's listing and leaves the `(5, 8)` rows untouched. -/
theorem amnesty_full_clears_witness :
    get_user_warns (amnesty_full demoDB 5 7) 5 7 = [] ∧
      get_user_warns (amnesty_full demoDB 5 7) 5 8 = get_user_warns demoDB 5 8 ∧
      get_user_counts (amnesty_full demoDB 5 7) 5 8 = get_user_counts demoDB 5 8 :=
  ⟨(amnesty_full_clears demoDB 5 7).1,
   ((amnesty_full_clears demoDB 5 7).2.2.1 5 8 (by decide)).1,
   ((amnesty_full_clears demoDB 5 7).2.2.1 5 8 (by decide)).2⟩

end TgBot

namespace TgBot

/-! ### Frame lemmas for participant tracking -/

/-- `participant_upsert` only touches the participants table. -/
theorem participant_upsert_frame (st : DB) (chat : Int) (u : Option TgUser) (now : String) :
    (participant_upsert st chat u now).warns = st.warns ∧
    (participant_upsert st chat u now).next_id = st.next_id := by
  unfold participant_upsert
  cases u
  · exact ⟨rfl, rfl⟩
  · exact ⟨rfl, rfl⟩

/-- `track_message_participants` only touches the participants table. -/
theorem track_message_participants_frame (st : DB) (m : Msg) (now : String) :
    (track_message_participants st m now).warns = st.warns ∧
    (track_message_participants st m now).next_id = st.next_id := by
  unfold track_message_participants
  cases hr : m.reply_to_message with
  | none => exact participant_upsert_frame st m.chat.id (some m.from_user) now
  | some rm =>
    obtain ⟨fu⟩ := rm
    cases fu with
    | none => exact participant_upsert_frame st m.chat.id (some m.from_user) now
    | some u2 =>
      have h1 := participant_upsert_frame st m.chat.id (some m.from_user) now
      have h2 := participant_upsert_frame
        (participant_upsert st m.chat.id (some m.from_user) now) m.chat.id (some u2) now
      exact ⟨h2.1.trans h1.1, h2.2.trans h1.2⟩

/-! ### C2: access denial -/

/-- C2 counterexample: an allow-listed but non-admin sender issuing
`/warn` in a group is denied, yet the handler has already written a
participant-directory row for the sender — the store is not unchanged. -/
theorem cmd_warn_admin_denial_writes_participant :
    cmd_warn gmMemberAll DB.empty msgPlain none "2024-05-01T00:00:00" =
      some (track_message_participants DB.empty msgPlain "2024-05-01T00:00:00", Reply.adminOnly) ∧
    (track_message_participants DB.empty msgPlain "2024-05-01T00:00:00").participants ≠ [] := by
  decide

/-- C2 (amended): an allow-list denial replies the denial message and
leaves the whole store untouched in every handler; an admin-gate denial
(mutating commands) replies the denial message and leaves the warning
ledger untouched, but the participant upserts of the sender and the
replied-to author have already run before the check. -/
theorem access_denial_state (gm : Int → Int → ChatMemberResult) (st : DB) (m : Msg)
    (args : Option String) (now : String) : DenialNoLedgerChange gm st m args now := by
  constructor
  · intro hden
    refine ⟨?_, ?_, ?_, ?_, ?_, ?_, ?_, ?_⟩ <;>
      simp [on_start, on_help, cmd_warn, cmd_hardwarn, warnHandler, cmd_warns,
        cmd_allwarns, cmd_amnesty, cmd_full_amnesty, hden]
  · intro hallow hgrp hadmin
    refine ⟨?_, ?_, ?_, ?_,
      (track_message_participants_frame st m now).1,
      (track_message_participants_frame st m now).2⟩
    · simp [cmd_warn, warnHandler, hallow, hgrp, hadmin]
    · simp [cmd_hardwarn, warnHandler, hallow, hgrp, hadmin]
    · simp [cmd_amnesty, hallow, hgrp, hadmin]
    · simp [cmd_full_amnesty, hallow, hgrp, hadmin]

/-- C2 witness: a concrete allow-list denial leaves the store untouched,
and a concrete admin-gate denial replies the denial with only the
participant tracking performed. -/
theorem access_denial_state_witness :
    cmd_warn gmMemberAll DB.empty msgZed none "2024-05-01T00:00:00" =
      some (DB.empty, Reply.accessDenied) ∧
    cmd_amnesty gmMemberAll DB.empty msgPlain (some "1") "2024-05-01T00:00:00" =
      some (track_message_participants DB.empty msgPlain "2024-05-01T00:00:00", Reply.adminOnly) :=
  ⟨((access_denial_state gmMemberAll DB.empty msgZed none "2024-05-01T00:00:00").1
      (by decide)).2.2.1,
   (((access_denial_state gmMemberAll DB.empty msgPlain (some "1") "2024-05-01T00:00:00").2
      (by decide) (by decide) (by decide)).2.2.1)⟩

/-! ### C6: resolution failure -/

/-- C6 counterexample: `/warns` with no resolvable target does not prompt
for clarification — it substitutes the sender (id 578664673) as the
subject and reports the sender's own (empty) record. -/
theorem cmd_warns_substitutes_sender :
    (cmd_warns DB.empty msgPlain "2024-05-01T00:00:00").2 = Reply.noWarns 578664673 "Olga" ∧
    (cmd_warns DB.empty msgPlain "2024-05-01T00:00:00").2 ≠ Reply.askTarget := by
  decide

/-- C6 (amended): when target resolution fails, each mutating handler
(`warn`, `hardwarn`, `amnesty`, `fullamnesty`) replies the clarification
prompt with the warning ledger unchanged (participant tracking has still
run), while `cmd_warns` substitutes the sender as its subject instead of
prompting. -/
theorem resolution_failure_prompts (gm : Int → Int → ChatMemberResult) (st : DB) (m : Msg)
    (args : Option String) (now : String)
    (hallow : is_allowed (some m.from_user.id) = true)
    (hgrp : isGroupChat m = true)
    (hadmin : isAdminOutcome (gm m.chat.id m.from_user.id) = some true)
    (hnone : extract_target_user (track_message_participants st m now) m = none) :
    ResolutionFailureOK gm st m args now := by
  refine ⟨?_, ?_, ?_, ?_,
    (track_message_participants_frame st m now).1,
    (track_message_participants_frame st m now).2, ?_⟩
  · simp [cmd_warn, warnHandler, hallow, hgrp, hadmin, hnone]
  · simp [cmd_hardwarn, warnHandler, hallow, hgrp, hadmin, hnone]
  · simp [cmd_amnesty, hallow, hgrp, hadmin, hnone]
  · simp [cmd_full_amnesty, hallow, hgrp, hadmin, hnone]
  · simp [cmd_warns, hallow, hnone]

/-- C6 witness: the resolution-failure contract at a concrete denied
resolution. -/
theorem resolution_failure_prompts_witness :
    ResolutionFailureOK gmAdminAll DB.empty msgPlain none "2024-05-01T00:00:00" :=
  resolution_failure_prompts gmAdminAll DB.empty msgPlain none "2024-05-01T00:00:00"
    (by decide) (by decide) (by decide) (by decide)

end TgBot

namespace TgBot

/-! ### C10: unrecognised amnesty scope token -/

/-- C10: in `/amnesty`, a second token that is none of `warn`/`hard`/
`all` (case-insensitively) is silently ignored: the scope stays `all`
and, with a valid positive count, the command deletes up to that many of
the subject's most recent records regardless of kind instead of
reporting a malformed-argument error — only the count is validated. -/
theorem amnesty_unknown_scope_defaults_all (gm : Int → Int → ChatMemberResult)
    (st : DB) (m : Msg) (args : Option String) (now : String) (t : Target) (c : Int)
    (ctok tok : String) (rest : List String)
    (hallow : is_allowed (some m.from_user.id) = true)
    (hgrp : isGroupChat m = true)
    (hadmin : isAdminOutcome (gm m.chat.id m.from_user.id) = some true)
    (htarget : extract_target_user (track_message_participants st m now) m = some t)
    (hne : pyStrip (pyOrStr args "") ≠ "")
    (hparts : pyWords (stripMentions (pyStrip (pyOrStr args ""))) = ctok :: tok :: rest)
    (hct : parsePyInt ctok = some c)
    (hpos : 0 < c)
    (htok : lowerStr tok ≠ "warn" ∧ lowerStr tok ≠ "hard" ∧ lowerStr tok ≠ "all") :
    UnknownScopeOK gm st m args now t c := by
  have hcond : ¬(lowerStr tok = "warn" ∨ lowerStr tok = "hard" ∨ lowerStr tok = "all") := by
    rintro (h | h | h)
    · exact htok.1 h
    · exact htok.2.1 h
    · exact htok.2.2 h
  have hparse : parseAmnestyArgs (pyStrip (pyOrStr args "")) = (some c, "all") := by
    unfold parseAmnestyArgs
    rw [if_neg hne]
    simp [hparts, hct, hcond]
  have hc0 : ¬(c ≤ 0) := not_le.mpr hpos
  constructor
  · exact hparse
  · simp [cmd_amnesty, hallow, hgrp, hadmin, htarget, hparse, hc0]

/-- C10 witness: `/amnesty 2 xyz` (with the target resolved from the
reply) silently uses scope `all` with count 2. -/
theorem amnesty_unknown_scope_defaults_all_witness :
    UnknownScopeOK gmAdminAll DB.empty msgReplyCarol (some "2 xyz @dave")
      "2024-05-01T00:00:00" (Target.ofUser uCarol) 2 :=
  amnesty_unknown_scope_defaults_all gmAdminAll DB.empty msgReplyCarol
    (some "2 xyz @dave") "2024-05-01T00:00:00" (Target.ofUser uCarol) 2 "2" "xyz" []
    (by decide) (by decide) (by decide) (by decide) (by decide) (by decide)
    (by decide) (by decide) (by decide)

/-! ### C3: counts follow insertions -/

/-- One `add_warn` call bumps the matching per-kind count by one and
leaves the other counts alone. -/
theorem applyAddWarn_counts (st st2 : DB) (a : AddArgs) (chat user : Int)
    (h : applyAddWarn st a = some st2) :
    (get_user_counts st2 chat user).1 = (get_user_counts st chat user).1 +
      (if a.chat_id == chat && a.user_id == user && a.warn_type == "warn" then 1 else 0) ∧
    (get_user_counts st2 chat user).2 = (get_user_counts st chat user).2 +
      (if a.chat_id == chat && a.user_id == user && a.warn_type == "hard" then 1 else 0) := by
  unfold applyAddWarn add_warn at h
  split_ifs at h with hty
  · have hst : st2 = { st with
        warns := st.warns ++
          [⟨st.next_id, a.chat_id, a.user_id, a.user_name, a.warn_type, a.reason.getD "",
            a.given_by_id, a.given_by_name, a.created_at⟩],
        next_id := st.next_id + 1 } := (Option.some.inj h).symm
    subst hst
    constructor <;>
      (simp only [get_user_counts, warnMatches, List.filter_append, List.length_append,
         List.filter_cons, List.filter_nil]
       split_ifs <;> simp_all)

/-- Counts after a completed `add_warn` sequence: the previous counts
plus the matching insertions. -/
theorem applyWarnOps_counts (chat user : Int) (ops : List AddArgs) :
    ∀ (st st2 : DB), applyWarnOps st ops = some st2 →
    (get_user_counts st2 chat user).1 = (get_user_counts st chat user).1 +
      (ops.filter (fun a => a.chat_id == chat && a.user_id == user && a.warn_type == "warn")).length ∧
    (get_user_counts st2 chat user).2 = (get_user_counts st chat user).2 +
      (ops.filter (fun a => a.chat_id == chat && a.user_id == user && a.warn_type == "hard")).length := by
  induction ops with
  | nil =>
    intro st st2 h
    have hst : st = st2 := Option.some.inj h
    subst hst
    simp
  | cons a ops ih =>
    intro st st2 h
    unfold applyWarnOps at h
    cases haa : applyAddWarn st a with
    | none =>
      rw [haa] at h
      exact Option.noConfusion h
    | some st1 =>
      rw [haa] at h
      have hstep := applyAddWarn_counts st st1 a chat user haa
      have hrest := ih st1 st2 h
      constructor
      · rw [hrest.1, hstep.1, List.filter_cons]
        split_ifs with hpa
        · simp only [List.length_cons]
          omega
        · omega
      · rw [hrest.2, hstep.2, List.filter_cons]
        split_ifs with hpa
        · simp only [List.length_cons]
          omega
        · omega

/-- C3: after any completed `add_warn` sequence, `get_user_counts`
reports exactly the per-kind insertions for the pair, unaffected by
other pairs, and an empty per-kind row set yields 0. -/
theorem get_user_counts_additive (st st2 : DB) (ops : List AddArgs) (chat user : Int)
    (h : applyWarnOps st ops = some st2) : AddCountsOK st st2 ops chat user := by
  obtain ⟨h1, h2⟩ := applyWarnOps_counts chat user ops st st2 h
  refine ⟨h1, h2, ?_, ?_⟩
  · intro h0
    simp [get_user_counts, h0]
  · intro h0
    simp [get_user_counts, h0]

/-- C3 witness: running the sample insertion sequence gives counts
`(3, 2)` for `(5, 7)` — one new standard and one new severe on top of
the existing two standard and one severe rows — with the contract
holding. -/
theorem get_user_counts_additive_witness :
    applyWarnOps demoDB demoOps = some demoDB3 ∧
      AddCountsOK demoDB demoDB3 demoOps 5 7 ∧
      get_user_counts demoDB3 5 7 = (3, 2) :=
  ⟨by decide, get_user_counts_additive demoDB demoDB3 demoOps 5 7 (by decide), by decide⟩

end TgBot

namespace TgBot

/-! ### C8: handle resolution is chat-scoped -/

/-- The upserted row is present after `upsertRow`. -/
theorem upsertRow_self (row : ParticipantRow) (l : List ParticipantRow) :
    row ∈ upsertRow row l := by
  induction l with
  | nil => simp [upsertRow]
  | cons r rs ih =>
    unfold upsertRow
    split_ifs with h
    · exact List.mem_cons_self _ _
    · exact List.mem_cons_of_mem _ ih

/-- Every row after `upsertRow` is the new row or an old one. -/
theorem upsertRow_subset (row : ParticipantRow) (l : List ParticipantRow) :
    ∀ x ∈ upsertRow row l, x = row ∨ x ∈ l := by
  induction l with
  | nil =>
    intro x hx
    simp [upsertRow] at hx
    exact Or.inl hx
  | cons r rs ih =>
    intro x hx
    unfold upsertRow at hx
    split_ifs at hx with h
    · rcases List.mem_cons.mp hx with h1 | h1
      · exact Or.inl h1
      · exact Or.inr (List.mem_cons_of_mem _ h1)
    · rcases List.mem_cons.mp hx with h1 | h1
      · exact Or.inr (h1 ▸ List.mem_cons_self _ _)
      · rcases ih x h1 with h2 | h2
        · exact Or.inl h2
        · exact Or.inr (List.mem_cons_of_mem _ h2)

/-- A `find?` that rejects the new row and every row sharing its key is
unaffected by `upsertRow`. -/
theorem find?_upsertRow (p : ParticipantRow → Bool) (row : ParticipantRow)
    (l : List ParticipantRow) (hrow : p row = false)
    (hkey : ∀ r ∈ l, r.chat_id = row.chat_id → r.user_id = row.user_id → p r = false) :
    (upsertRow row l).find? p = l.find? p := by
  induction l with
  | nil => simp [upsertRow, List.find?, hrow]
  | cons r rs ih =>
    unfold upsertRow
    split_ifs with h
    · have hpr : p r = false := hkey r (List.mem_cons_self _ _) h.1 h.2
      simp [List.find?, hrow, hpr]
    · cases hpr : p r with
      | true => simp [List.find?, hpr]
      | false =>
        simp only [List.find?, hpr]
        exact ih (fun r2 hr2 => hkey r2 (List.mem_cons_of_mem _ hr2))

/-- C8: after upserting a user with handle `H` in chat `A` (no other
user of chat `A` holding that lower-cased handle), looking up
`lower(H)` in chat `A` resolves to that user's id; lookups in any other
chat are untouched by the upsert; and in general a lookup succeeds
exactly when a directory row with that lower-cased handle exists for
that exact chat. -/
theorem find_participant_scoped (st : DB) (A B : Int) (u : TgUser) (now H : String)
    (hU : u.username = some H) (hH : H ≠ "") (hHl : lowerStr H ≠ "")
    (hUniq : ∀ row ∈ st.participants, row.chat_id = A →
      row.username_lower = some (lowerStr H) → row.user_id = u.id)
    (hB : B ≠ A) :
    ((find_participant_by_username (participant_upsert st A (some u) now) A
        (lowerStr H)).map Target.id = some u.id) ∧
    (∀ h2 : String, find_participant_by_username (participant_upsert st A (some u) now) B h2 =
      find_participant_by_username st B h2) ∧
    (∀ (c : Int) (hh : String), (find_participant_by_username st c hh).isSome ↔
      ∃ row ∈ st.participants, row.chat_id = c ∧ row.username_lower = some hh) := by
  have hpart : (participant_upsert st A (some u) now).participants =
      upsertRow (mkParticipantRow A u now) st.participants := rfl
  have hrowlow : (mkParticipantRow A u now).username_lower = some (lowerStr H) := by
    simp [mkParticipantRow, pyOrNone, strOrNone, pyOrStr, hU, hH, hHl]
  have hrowchat : (mkParticipantRow A u now).chat_id = A := rfl
  have hrowuid : (mkParticipantRow A u now).user_id = u.id := rfl
  refine ⟨?_, ?_, ?_⟩
  · unfold find_participant_by_username
    rw [hpart]
    have hprow : (fun r : ParticipantRow =>
        r.chat_id == A && r.username_lower == some (lowerStr H)) (mkParticipantRow A u now) = true := by
      simp [hrowchat, hrowlow]
    cases hf : (upsertRow (mkParticipantRow A u now) st.participants).find?
        (fun r => r.chat_id == A && r.username_lower == some (lowerStr H)) with
    | none =>
      exact absurd hprow (by
        simpa using List.find?_eq_none.mp hf (mkParticipantRow A u now)
          (upsertRow_self (mkParticipantRow A u now) st.participants))
    | some r =>
      have hpr := List.find?_some hf
      have hmem := List.mem_of_find?_eq_some hf
      have hid : r.user_id = u.id := by
        rcases upsertRow_subset (mkParticipantRow A u now) st.participants r hmem with h1 | h1
        · rw [h1]
          exact hrowuid
        · simp only [Bool.and_eq_true, beq_iff_eq] at hpr
          exact hUniq r h1 hpr.1 hpr.2
      simp [hid]
  · intro h2
    unfold find_participant_by_username
    rw [hpart]
    have hfr := find?_upsertRow
      (fun r => r.chat_id == B && r.username_lower == some h2) (mkParticipantRow A u now)
      st.participants
      (by
        have hc : ((mkParticipantRow A u now).chat_id == B) = false := by
          rw [hrowchat]
          exact beq_eq_false_iff_ne.mpr (fun hc => hB hc.symm)
        simp [hc])
      (by
        intro r2 hr2 hc2 _
        have hc : (r2.chat_id == B) = false := by
          rw [hc2, hrowchat]
          exact beq_eq_false_iff_ne.mpr (fun hc => hB hc.symm)
        simp [hc])
    rw [hfr]
  · intro c hh
    unfold find_participant_by_username
    cases hf : st.participants.find?
        (fun r => r.chat_id == c && r.username_lower == some hh) with
    | none =>
      simp only [Option.isSome_none, Bool.false_eq_true, false_iff]
      rintro ⟨row, hmem, hc, hl⟩
      have hnone := List.find?_eq_none.mp hf row hmem
      simp [hc, hl] at hnone
    | some r =>
      have hpr := List.find?_some hf
      have hmem := List.mem_of_find?_eq_some hf
      simp only [Bool.and_eq_true, beq_iff_eq] at hpr
      simp only [Option.isSome_some, true_iff]
      exact ⟨r, hmem, hpr.1, hpr.2⟩

/-- C8 witness: upserting Carol (handle `Carol`) into chat 5 makes
`carol` resolve to id 777 there, while chat 6 still resolves nothing. -/
theorem find_participant_scoped_witness :
    ((find_participant_by_username (participant_upsert DB.empty 5 (some uCarol) "t1") 5
        (lowerStr "Carol")).map Target.id = some (777 : Int)) ∧
    find_participant_by_username (participant_upsert DB.empty 5 (some uCarol) "t1") 6
        (lowerStr "Carol") = find_participant_by_username DB.empty 6 (lowerStr "Carol") :=
  ⟨(find_participant_scoped DB.empty 5 6 uCarol "t1" "Carol"
      (by decide) (by decide) (by decide) (by decide) (by decide)).1,
   (find_participant_scoped DB.empty 5 6 uCarol "t1" "Carol"
      (by decide) (by decide) (by decide) (by decide) (by decide)).2.1 (lowerStr "Carol")⟩

end TgBot

namespace TgBot

/-! ### C1: partial amnesty deletes the most recent qualifying rows -/

/-- On a list with pairwise distinct `id`s, filtering by membership of
the `id` in the first `n` ids keeps exactly the first `n` elements, and
filtering by non-membership keeps exactly the rest. -/
theorem warnIdFilterTake (l : List WarnRecord) (n : Nat)
    (h : (l.map (fun r => r.id)).Nodup) :
    l.filter (fun x => decide (x.id ∈ (l.take n).map (fun r => r.id))) = l.take n ∧
    l.filter (fun x => !decide (x.id ∈ (l.take n).map (fun r => r.id))) = l.drop n := by
  have hl : l = l.take n ++ l.drop n := (List.take_append_drop n l).symm
  set t := l.take n with ht
  set d := l.drop n with hd
  have hnd : (t.map (fun r => r.id) ++ d.map (fun r => r.id)).Nodup := by
    rw [← List.map_append, ← hl]
    exact h
  have hdisj := (List.nodup_append.mp hnd).2.2
  constructor
  · conv_lhs => rw [hl]
    rw [List.filter_append]
    have h1 : t.filter (fun x => decide (x.id ∈ t.map (fun r => r.id))) = t :=
      List.filter_eq_self.mpr (fun a ha => by
        simp only [decide_eq_true_eq]
        exact List.mem_map.mpr ⟨a, ha, rfl⟩)
    have h2 : d.filter (fun x => decide (x.id ∈ t.map (fun r => r.id))) = [] :=
      List.filter_eq_nil_iff.mpr (fun a ha => by
        simp only [decide_eq_true_eq]
        exact fun hmem => hdisj hmem (List.mem_map.mpr ⟨a, ha, rfl⟩))
    rw [h1, h2, List.append_nil]
  · conv_lhs => rw [hl]
    rw [List.filter_append]
    have h1 : t.filter (fun x => !decide (x.id ∈ t.map (fun r => r.id))) = [] :=
      List.filter_eq_nil_iff.mpr (fun a ha => by
        simp only [Bool.not_eq_true', decide_eq_false_iff_not, Decidable.not_not]
        exact List.mem_map.mpr ⟨a, ha, rfl⟩)
    have h2 : d.filter (fun x => !decide (x.id ∈ t.map (fun r => r.id))) = d :=
      List.filter_eq_self.mpr (fun a ha => by
        simp only [Bool.not_eq_true', decide_eq_false_iff_not]
        exact fun hmem => hdisj hmem (List.mem_map.mpr ⟨a, ha, rfl⟩))
    rw [h1, h2, List.nil_append]

/-- For a ledger whose rows all carry a valid kind, the two per-kind
counts add up to the pair's total row count. -/
theorem counts_sum (st : DB) (chat user : Int)
    (htypes : ∀ r ∈ st.warns, r.warn_type = "warn" ∨ r.warn_type = "hard") :
    (get_user_counts st chat user).1 + (get_user_counts st chat user).2 =
      (st.warns.filter (warnMatches chat user)).length := by
  unfold get_user_counts
  have e1 : st.warns.filter (fun r => warnMatches chat user r && r.warn_type == "warn") =
      (st.warns.filter (warnMatches chat user)).filter (fun r => r.warn_type == "warn") := by
    rw [List.filter_filter]
    exact List.filter_congr (fun x _ => by rw [Bool.and_comm])
  have e2 : st.warns.filter (fun r => warnMatches chat user r && r.warn_type == "hard") =
      (st.warns.filter (warnMatches chat user)).filter (fun r => r.warn_type == "hard") := by
    rw [List.filter_filter]
    exact List.filter_congr (fun x _ => by rw [Bool.and_comm])
  rw [e1, e2]
  have hsplit := (List.filter_append_perm (fun r => r.warn_type == "warn")
      (st.warns.filter (warnMatches chat user))).length_eq
  rw [List.length_append] at hsplit
  have e3 : (st.warns.filter (warnMatches chat user)).filter
        (fun x => !(x.warn_type == "warn")) =
      (st.warns.filter (warnMatches chat user)).filter (fun r => r.warn_type == "hard") := by
    apply List.filter_congr
    intro x hx
    rcases htypes x (List.mem_of_mem_filter hx) with h | h
    · rw [h]
      decide
    · rw [h]
      decide
  rw [e3] at hsplit
  omega

/-- Core of the partial-amnesty argument, for `rest` the rows surviving
the deletion of the first `n` ids of the sorted qualifying rows `qual`. -/
theorem delete_core (st : DB) (chat user : Int) (q : WarnRecord → Bool) (n : Nat)
    (qual : List WarnRecord) (D : List Nat) (rest : List WarnRecord)
    (hnodup : (st.warns.map (fun r => r.id)).Nodup)
    (himp : ∀ r, q r = true → warnMatches chat user r = true)
    (hqual : qual = sortListing (st.warns.filter q))
    (hD : D = (qual.take n).map (fun r => r.id))
    (hrest : rest = st.warns.filter (fun r => !(D.contains r.id))) :
    (rest.filter q).Perm (qual.drop n) ∧
    (∀ r ∈ st.warns, q r = false → r ∈ rest) ∧
    (∀ r ∈ rest, r ∈ st.warns) ∧
    (rest.filter (warnMatches chat user)).length =
      (st.warns.filter (warnMatches chat user)).length - min n (st.warns.filter q).length := by
  subst hD
  subst hrest
  have hperm : qual.Perm (st.warns.filter q) := by
    rw [hqual]
    exact List.perm_insertionSort recLE _
  have hLids : ((st.warns.filter q).map (fun r => r.id)).Nodup :=
    ((List.filter_sublist st.warns).map (fun r => r.id)).nodup hnodup
  have hqids : (qual.map (fun r => r.id)).Nodup :=
    ((hperm.map (fun r => r.id)).nodup_iff).mpr hLids
  have hTD := warnIdFilterTake qual n hqids
  have hmemD : ∀ x ∈ st.warns, x.id ∈ (qual.take n).map (fun r => r.id) → q x = true := by
    intro x hx hid
    obtain ⟨y, hy, hyx⟩ := List.mem_map.mp hid
    have hyqual : y ∈ qual := List.mem_of_mem_take hy
    have hyL : y ∈ st.warns.filter q := hperm.mem_iff.mp hyqual
    have hyst : y ∈ st.warns := List.mem_of_mem_filter hyL
    have hxy : x = y := List.inj_on_of_nodup_map hnodup hx hyst hyx.symm
    rw [hxy]
    exact List.of_mem_filter hyL
  have hcont : st.warns.filter
        (fun r => !(((qual.take n).map (fun r2 => r2.id)).contains r.id)) =
      st.warns.filter (fun r => !decide (r.id ∈ (qual.take n).map (fun r2 => r2.id))) :=
    List.filter_congr (fun x _ => by simp)
  refine ⟨?_, ?_, ?_, ?_⟩
  · rw [hcont]
    have e1 : (st.warns.filter
          (fun r => !decide (r.id ∈ (qual.take n).map (fun r2 => r2.id)))).filter q =
        (st.warns.filter q).filter
          (fun r => !decide (r.id ∈ (qual.take n).map (fun r2 => r2.id))) := by
      rw [List.filter_filter, List.filter_filter]
      exact List.filter_congr (fun x _ => by rw [Bool.and_comm])
    rw [e1, ← hTD.2]
    exact (hperm.filter _).symm
  · intro r hr hq0
    rw [hcont]
    apply List.mem_filter.mpr
    refine ⟨hr, ?_⟩
    have hnot : r.id ∉ (qual.take n).map (fun r2 => r2.id) := by
      intro hmem
      have hq1 := hmemD r hr hmem
      rw [hq0] at hq1
      exact Bool.noConfusion hq1
    simpa using hnot
  · intro r hr
    exact List.mem_of_mem_filter hr
  · rw [hcont]
    have e2 : (st.warns.filter
          (fun r => !decide (r.id ∈ (qual.take n).map (fun r2 => r2.id)))).filter
            (warnMatches chat user) =
        (st.warns.filter (warnMatches chat user)).filter
          (fun r => !decide (r.id ∈ (qual.take n).map (fun r2 => r2.id))) := by
      rw [List.filter_filter, List.filter_filter]
      exact List.filter_congr (fun x _ => by rw [Bool.and_comm])
    rw [e2]
    have hsplit := (List.filter_append_perm
        (fun r => decide (r.id ∈ (qual.take n).map (fun r2 => r2.id)))
        (st.warns.filter (warnMatches chat user))).length_eq
    rw [List.length_append] at hsplit
    have e4 : (st.warns.filter (warnMatches chat user)).filter
          (fun r => decide (r.id ∈ (qual.take n).map (fun r2 => r2.id))) =
        (st.warns.filter q).filter
          (fun r => decide (r.id ∈ (qual.take n).map (fun r2 => r2.id))) := by
      rw [List.filter_filter, List.filter_filter]
      apply List.filter_congr
      intro x hx
      cases hdx : decide (x.id ∈ (qual.take n).map (fun r2 => r2.id)) with
      | false => simp
      | true =>
        have hqx := hmemD x hx (of_decide_eq_true hdx)
        have hpx := himp x hqx
        simp [hqx, hpx]
    have e5 : ((st.warns.filter q).filter
          (fun r => decide (r.id ∈ (qual.take n).map (fun r2 => r2.id)))).length =
        (qual.filter
          (fun r => decide (r.id ∈ (qual.take n).map (fun r2 => r2.id)))).length :=
      ((hperm.filter _).symm).length_eq
    have e6 := hTD.1
    have h7 : (qual.take n).length = min n qual.length := by
      rw [List.length_take]
    have h8 : qual.length = (st.warns.filter q).length := hperm.length_eq
    have hlen1 : ((st.warns.filter (warnMatches chat user)).filter
          (fun r => decide (r.id ∈ (qual.take n).map (fun r2 => r2.id)))).length =
        min n (st.warns.filter q).length := by
      rw [e4, e5, e6, h7, h8]
    omega

/-- C1: `amnesty_partial` deletes exactly the (up to) `count` most
recent qualifying rows in listing order — only rows of the requested
kind for scope `warn`/`hard`, any kind otherwise — never inventing rows,
dropping the pair's total count by `min count (#qualifying)`, with no
error when fewer qualify, and leaving the participants table alone. -/
theorem amnesty_partial_most_recent (st : DB) (chat user : Int) (n : Int) (kind : String)
    (hwf : WF st) (hn : 0 ≤ n) : AmnestyPartialOK st chat user n kind := by
  obtain ⟨hnodup, htypes⟩ := hwf
  have hlim : ∀ (l : List WarnRecord), limitTake n l = l.take n.toNat := by
    intro l
    unfold limitTake
    rw [if_neg (not_lt.mpr hn)]
  have key : ( amnesty_partial st chat user n kind).warns =
      st.warns.filter (fun r =>
        !((((sortListing (st.warns.filter (qualB chat user kind))).take n.toNat).map
            (fun r2 => r2.id)).contains r.id)) ∧
      ( amnesty_partial st chat user n kind).participants = st.participants := by
    by_cases hk : kind = "warn" ∨ kind = "hard"
    · have hqfun : qualB chat user kind =
          fun r => warnMatches chat user r && r.warn_type == kind :=
        funext (fun r => by
          unfold qualB
          rw [if_pos hk])
      simp only [ amnesty_partial]
      rw [if_pos hk, hqfun, hlim]
      exact ⟨rfl, rfl⟩
    · have hqfun : qualB chat user kind = warnMatches chat user :=
        funext (fun r => by
          unfold qualB
          rw [if_neg hk, Bool.and_true])
      simp only [ amnesty_partial]
      rw [if_neg hk, hqfun, hlim]
      exact ⟨rfl, rfl⟩
  obtain ⟨hwarns, hparts⟩ := key
  have himp : ∀ r, qualB chat user kind r = true → warnMatches chat user r = true := by
    intro r h
    unfold qualB at h
    simp only [Bool.and_eq_true] at h
    exact h.1
  have core := delete_core st chat user (qualB chat user kind) n.toNat
    (sortListing (st.warns.filter (qualB chat user kind)))
    (((sortListing (st.warns.filter (qualB chat user kind))).take n.toNat).map
      (fun r2 => r2.id))
    (( amnesty_partial st chat user n kind).warns)
    hnodup himp rfl rfl hwarns
  have htypes2 : ∀ r ∈ ( amnesty_partial st chat user n kind).warns,
      r.warn_type = "warn" ∨ r.warn_type = "hard" :=
    fun r hr => htypes r (core.2.2.1 r hr)
  refine ⟨core.1, core.2.1, core.2.2.1, ?_, hparts⟩
  rw [counts_sum _ chat user htypes2, counts_sum _ chat user htypes]
  exact core.2.2.2

/-- C1 witness: on the sample ledger, `amnesty_partial demoDB 5 7 2
"all"` satisfies the whole contract (the two newest rows `w3, w2` go,
`w1` stays). -/
theorem amnesty_partial_most_recent_witness :
    WF demoDB ∧ (0 : Int) ≤ 2 ∧ AmnestyPartialOK demoDB 5 7 2 "all" :=
  ⟨by decide, by decide, amnesty_partial_most_recent demoDB 5 7 2 "all" (by decide) (by decide)⟩

end TgBot
